import Mathlib

/-!
Shallow embedding of the huijiwiki-tools batch image upload pipeline
(`src/lib/progress-tracker.js` — provided unnamed —, `src/lib/image-uploader.js`,
`tools/batch-upload-images.js`), together with proofs about the claims of the
specification.  JavaScript arrays become Lean lists, JS objects become
structures, `null`/`undefined` becomes `Option`, and the external wiki API is
replaced by explicit outcome oracles.
-/

namespace HuijiUpload

/-! ## Progress tracker (`ProgressTracker` in the source) -/

/-- One element of the `failed` array: `{ file, error, attempts }`. -/
structure FailedEntry where
  file : String
  error : String
  attempts : Nat
deriving DecidableEq, Repr

/-- The persisted run state `this.data` of a `ProgressTracker`
(timestamp bookkeeping fields are immaterial to the claims and omitted
from mutation modelling; `lastUpdated` rewriting in `save` is a pure
timestamp effect). -/
structure RunData where
  taskId : String
  sourceDir : String
  totalFiles : Nat
  pendingFiles : List String
  completed : List String
  failed : List FailedEntry
deriving DecidableEq, Repr

/-- `markCompleted` on a loaded state: `indexOf`+`splice` on `pendingFiles`
is removal of the first occurrence (`List.erase`); push to `completed`
guarded by `includes`; `findIndex`+`splice` on `failed` removes the first
entry whose `file` matches (`List.eraseP`). -/
def RunData.markCompleted (d : RunData) (targetName : String) : RunData :=
  { d with
    pendingFiles := d.pendingFiles.erase targetName
    completed :=
      if d.completed.contains targetName then d.completed
      else d.completed ++ [targetName]
    failed := d.failed.eraseP (fun f => f.file == targetName) }

/-- The `find`-then-mutate-else-push upsert used by `markFailed`. -/
def upsertFailed : List FailedEntry → String → String → Nat → List FailedEntry
  | [], n, e, a => [⟨n, e, a⟩]
  | f :: fs, n, e, a =>
    if f.file == n then ⟨f.file, e, a⟩ :: fs else f :: upsertFailed fs n e a

/-- `markFailed` on a loaded state: remove the first occurrence from
`pendingFiles`, upsert into `failed`. -/
def RunData.markFailed (d : RunData) (targetName error : String)
    (attempts : Nat := 1) : RunData :=
  { d with
    pendingFiles := d.pendingFiles.erase targetName
    failed := upsertFailed d.failed targetName error attempts }

/-- The retry admission performed by `main()` under `--retry-failed`:
every failed file is pushed into `pendingFiles` unless already present,
then `failed` is cleared. -/
def RunData.admitForRetry (d : RunData) : RunData :=
  { d with
    pendingFiles :=
      (d.failed.map (fun f => f.file)).foldl
        (fun p f => if p.contains f then p else p ++ [f]) d.pendingFiles
    failed := [] }

/-- A `ProgressTracker` whose `data` is `none` models the object before
`init`/`load` populated it (`this.data = null`). -/
structure ProgressTracker where
  data : Option RunData
deriving DecidableEq, Repr

/-- `markCompleted` returns immediately when `this.data` is null. -/
def ProgressTracker.markCompleted (t : ProgressTracker) (n : String) :
    ProgressTracker :=
  match t.data with
  | none => t
  | some d => ⟨some (d.markCompleted n)⟩

/-- `markFailed` returns immediately when `this.data` is null. -/
def ProgressTracker.markFailed (t : ProgressTracker) (n e : String)
    (a : Nat := 1) : ProgressTracker :=
  match t.data with
  | none => t
  | some d => ⟨some (d.markFailed n e a)⟩

/-- `save` writes `this.data` to disk; the value written, or `none` when
`this.data` is null and the method returns without writing. -/
def ProgressTracker.save (t : ProgressTracker) : Option RunData :=
  match t.data with
  | none => none
  | some d => some d

/-- `getPendingFiles`: `[]` when no data. -/
def ProgressTracker.getPendingFiles (t : ProgressTracker) : List String :=
  match t.data with
  | none => []
  | some d => d.pendingFiles

/-- `getFailedFiles`: `[]` when no data. -/
def ProgressTracker.getFailedFiles (t : ProgressTracker) : List String :=
  match t.data with
  | none => []
  | some d => d.failed.map (fun f => f.file)

/-- The record returned by `getStats`. -/
structure Stats where
  taskId : String
  total : Nat
  completed : Nat
  failed : Nat
  pending : Nat
deriving DecidableEq, Repr

/-- `getStats`: `null` when no data. -/
def ProgressTracker.getStats (t : ProgressTracker) : Option Stats :=
  match t.data with
  | none => none
  | some d =>
    some ⟨d.taskId, d.totalFiles, d.completed.length, d.failed.length,
      d.pendingFiles.length⟩

/-! ## Upload log (`UploadLog` in the source) -/

/-- The character class `\s` of JavaScript regular expressions (also the
set trimmed by `String.prototype.trim`): ASCII whitespace, NBSP, the
Unicode space separators, the line/paragraph separators and the BOM. -/
def isJsSpace (c : Char) : Bool :=
  c = ' ' || c = '\t' || c = '\n' || c = '\u000b' || c = '\u000c' ||
  c = '\r' || c = '\u00a0' || c = '\u1680' ||
  ('\u2000' ≤ c && c ≤ '\u200a') || c = '\u2028' || c = '\u2029' ||
  c = '\u202f' || c = '\u205f' || c = '\u3000' || c = '\ufeff'

/-- The line terminators, which the JS regex `.` does not match. -/
def isLineTerm (c : Char) : Bool :=
  c = '\n' || c = '\r' || c = '\u2028' || c = '\u2029'


/-- JavaScript `String.prototype.trim` on a character list. -/
def jsTrim (l : List Char) : List Char :=
  ((l.dropWhile isJsSpace).reverse.dropWhile isJsSpace).reverse

/-- JS `String.prototype.split` with a single-character separator, on a
character list, with accumulator. -/
def splitOnCharGo (sep : Char) : List Char → List Char → List (List Char)
  | acc, [] => [acc.reverse]
  | acc, c :: cs =>
    if c = sep then acc.reverse :: splitOnCharGo sep [] cs
    else splitOnCharGo sep (c :: acc) cs

/-- JS `String.prototype.split` with a single-character separator. -/
def splitOnChar (sep : Char) (cs : List Char) : List (List Char) :=
  splitOnCharGo sep [] cs

/-- `content.split('\n')`. -/
def splitLines (cs : List Char) : List (List Char) :=
  splitOnChar '\n' cs

/-- Tail of the load regex after the closing bracket:
`\s+SUCCESS\s+(.+)$`.  The first `\s+` is greedy and cannot usefully
backtrack (the next literal is not whitespace); the second `\s+` gives
back exactly one whitespace character to the mandatory `(.+)` when the
line ends in whitespace.  `.` does not match a line terminator, so a
capture containing one is impossible.  Returns the capture of `(.+)`. -/
def matchSuccessTail (cs : List Char) : Option (List Char) :=
  let ws₁ := cs.takeWhile isJsSpace
  let r₁ := cs.dropWhile isJsSpace
  if ws₁.isEmpty then none
  else if ("SUCCESS".data).isPrefixOf r₁ then
    let r₂ := r₁.drop 7
    let ws₂ := r₂.takeWhile isJsSpace
    let r₃ := r₂.dropWhile isJsSpace
    if ws₂.isEmpty then none
    else if r₃.isEmpty then
      match ws₂.getLast? with
      | some c => if 2 ≤ ws₂.length && !isLineTerm c then some [c] else none
      | none => none
    else if r₃.any isLineTerm then none
    else some r₃
  else none

/-- The lazy `\[.*?\]` scan of the load regex: try each `]` in turn as the
closing bracket, backtracking into consuming it when the tail fails; the
lazy `.*?` cannot consume a line terminator. -/
def scanClose : List Char → Option (List Char)
  | [] => none
  | c :: cs =>
    if c = ']' then
      match matchSuccessTail cs with
      | some cap => some cap
      | none => scanClose cs
    else if isLineTerm c then none
    else scanClose cs

/-- `line.match(/^\[.*?\]\s+SUCCESS\s+(.+)$/)`: the capture group, when the
line matches. -/
def parseSuccessCapture (line : List Char) : Option (List Char) :=
  match line with
  | '[' :: rest => scanClose rest
  | _ => none

/-- `Set.prototype.add` on a duplicate-free list model of a JS `Set`. -/
def addToSet (s : List String) (x : String) : List String :=
  if s.contains x then s else s ++ [x]

/-- An `UploadLog`: the in-memory `uploaded` set and the durable log file
content (a character list, since the file is plain text). -/
structure UploadLog where
  uploaded : List String
  content : List Char
deriving DecidableEq, Repr

/-- Processing of one line inside `UploadLog.load`: on a regex match, add
the trimmed capture to the `uploaded` set. -/
def loadLine (uploaded : List String) (line : List Char) : List String :=
  match parseSuccessCapture line with
  | some cap => addToSet uploaded (String.mk (jsTrim cap))
  | none => uploaded

/-- `UploadLog.load` applied to given file content: split into lines, keep
lines whose trim is nonempty, fold the regex matcher over them. -/
def loadFromContent (cs : List Char) : UploadLog :=
  ⟨((splitLines cs).filter (fun l => !(jsTrim l).isEmpty)).foldl loadLine [],
    cs⟩

/-- `isUploaded`. -/
def UploadLog.isUploaded (g : UploadLog) (targetName : String) : Bool :=
  g.uploaded.contains targetName

/-- The line appended by `logSuccess`:
`[<timestamp>] SUCCESS <targetName> -> <wikiPref>\n`. -/
def successLine (timestamp targetName wikiPref : String) : List Char :=
  ("[" ++ timestamp ++ "] SUCCESS " ++ targetName ++ " -> " ++ wikiPref
    ++ "\n").data

/-- `logSuccess`: add to the in-memory set, append the line to the file. -/
def UploadLog.logSuccess (g : UploadLog)
    (timestamp targetName wikiPref : String) : UploadLog :=
  ⟨addToSet g.uploaded targetName,
    g.content ++ successLine timestamp targetName wikiPref⟩

/-- `logSkipped`: audit-only append, membership untouched. -/
def UploadLog.logSkipped (g : UploadLog)
    (timestamp targetName reason : String) : UploadLog :=
  ⟨g.uploaded,
    g.content ++
      ("[" ++ timestamp ++ "] SKIPPED " ++ targetName ++ " (" ++ reason
        ++ ")\n").data⟩

/-- `logFailed`: audit-only append (note the double space after `FAILED`
in the source), membership untouched. -/
def UploadLog.logFailed (g : UploadLog)
    (timestamp targetName error : String) : UploadLog :=
  ⟨g.uploaded,
    g.content ++
      ("[" ++ timestamp ++ "] FAILED  " ++ targetName ++ " (" ++ error
        ++ ")\n").data⟩

/-! ## Path transformer, name sanitizer, categories (`image-uploader.js`) -/

/-- `transformPath`: `relativePath.replace(/\//g, '-')`. -/
def transformPath (relativePath : String) : String :=
  String.mk (relativePath.data.map (fun c => if c = '/' then '-' else c))

/-- The per-character effect of the two `replace` calls of
`sanitizeFileName`: `:` and each of `#?<>|"\` become `_`. -/
def sanitizeChar (c : Char) : Char :=
  if c = ':' then '_'
  else if c = '#' || c = '?' || c = '<' || c = '>' || c = '|' || c = '"'
      || c = '\\' then '_'
  else c

/-- `replace(/\s+/g, ' ')`: every maximal whitespace run becomes one
space.  The flag records whether the previous character was whitespace
(in which case the current run's space has already been emitted). -/
def collapseWs : Bool → List Char → List Char
  | _, [] => []
  | prevSp, c :: cs =>
    if isJsSpace c then
      if prevSp then collapseWs true cs else ' ' :: collapseWs true cs
    else c :: collapseWs false cs

/-- `sanitizeFileName` on a character list: the two character
replacements, whitespace-run collapsing, then `trim()`. -/
def sanitizeChars (l : List Char) : List Char :=
  jsTrim (collapseWs false (l.map sanitizeChar))

/-- `sanitizeFileName`. -/
def sanitizeFileName (fileName : String) : String :=
  String.mk (sanitizeChars fileName.data)

/-- The configuration object, restricted to the fields the modelled code
reads: the first-level-folder category mapping (a JS object, modelled as
an association list with first-key-wins lookup), `upload.maxConcurrency`,
`upload.concurrency`, `upload.comment` and `wiki.prefix`.  Numeric config
values are modelled as integers (`Math.floor` is the identity on them). -/
structure Config where
  categoryMapping : List (String × String) := []
  uploadMaxConcurrency : Option Int := none
  uploadConcurrency : Option Int := none
  uploadComment : Option String := none
  wikiPref : Option String := none
deriving DecidableEq, Repr

/-- JS object property lookup `obj[key]` on the association-list model. -/
def lookupStr : List (String × String) → String → Option String
  | [], _ => none
  | (k, v) :: rest, key => if k == key then some v else lookupStr rest key

/-- `x || null` for a string-or-absent value: the empty string is falsy. -/
def orNull (v : Option String) : Option String :=
  match v with
  | some s => if s.isEmpty then none else some s
  | none => none

/-- The `{folder, folderChinese, bookId}` record of `extractCategories`. -/
structure Categories where
  folder : Option String
  folderChinese : Option String
  bookId : Option String
deriving DecidableEq, Repr

/-- `toLowerCase`, per character (the folder names the tool handles are
ASCII, where JS and Lean lower-casing agree). -/
def jsToLower (s : String) : String :=
  String.mk (s.data.map Char.toLower)

/-- `extractCategories`: split the relative path on `/`; two or more
segments give `folder` (and its mapped Chinese name, looked up lower-
cased); three or more give `bookId`. -/
def extractCategories (relativePath : String) (config : Config) :
    Categories :=
  let parts := (splitOnChar '/' relativePath.data).map String.mk
  let folder := if 2 ≤ parts.length then some (parts.headD "") else none
  { folder := folder
    folderChinese :=
      match folder with
      | some f => orNull (lookupStr config.categoryMapping (jsToLower f))
      | none => none
    bookId :=
      if 3 ≤ parts.length then some ((parts.drop 1).headD "") else none }

/-- `generateWikiText`: the fixed tag, the `bookId` tag, the mapped (or
raw) folder tag and the `bookId`-plus-suffix tag, concatenated. -/
def generateWikiText (categories : Categories) (_config : Config) :
    String :=
  let parts : List String :=
    ["[[Category:插图]]"]
    ++ (match categories.bookId with
        | some b => ["[[Category:" ++ b ++ "]]"]
        | none => [])
    ++ (match categories.folderChinese with
        | some fc => ["[[Category:" ++ fc ++ "]]"]
        | none =>
          match categories.folder with
          | some f => ["[[Category:" ++ f ++ "]]"]
          | none => [])
    ++ (match categories.bookId with
        | some b => ["[[Category:" ++ b ++ "插图]]"]
        | none => [])
  String.join parts

/-! ## Concurrency resolution (`processUploadQueue` and
`resolveConcurrency`) -/

/-- `normalizeConcurrency`: `Number.isFinite(v) ? Math.max(1, Math.floor(v))
: null`; an absent/`null`/`NaN` value is `none`, and on integer inputs
`Math.floor` is the identity. -/
def normalizeConcurrency (value : Option Int) : Option Int :=
  match value with
  | some v => some (max 1 v)
  | none => none

/-- `config?.upload?.maxConcurrency ?? config?.upload?.concurrency`. -/
def configConcurrencyValue (config : Config) : Option Int :=
  match config.uploadMaxConcurrency with
  | some v => some v
  | none => config.uploadConcurrency

/-- The `maxConcurrency` bound computed by `processUploadQueue` (the
normalized requested value is never `0`, so JS truthiness coincides with
presence). -/
def maxConcurrency (concurrency : Option Int) (config : Config) : Int :=
  match normalizeConcurrency concurrency with
  | some r =>
    match normalizeConcurrency (configConcurrencyValue config) with
    | some c => min r c
    | none => r
  | none =>
    match normalizeConcurrency (configConcurrencyValue config) with
    | some c => c
    | none => 1

/-- `workerCount = Math.min(maxConcurrency, files.length)`: the number of
workers started by `processUploadQueue`. -/
def workerCount (concurrency : Option Int) (config : Config)
    (filesLength : Nat) : Nat :=
  (min (maxConcurrency concurrency config) (filesLength : Int)).toNat

/-! ## `uploadSingleImage` / `editFilePage` retry loops

The external wiki capability is replaced by outcome oracles: the value of
`up a` (resp. `edit a`) is what the `a`-th `wiki.uploadImage` (resp.
`wiki.editPage`) call does. -/

/-- Outcome of one `wiki.uploadImage` call: a normal result carrying
`result.upload?.filename`, the benign `fileexists-no-change` error, a
structured API error (re-thrown as `code: info`), or a thrown
exception. -/
inductive AttemptOutcome where
  | ok (uploadFilename : Option String)
  | fileExistsNoChange
  | apiError (code info : String)
  | thrown (msg : String)
deriving DecidableEq, Repr

/-- Whether the attempt lands in the `catch` block. -/
def AttemptOutcome.isFailure : AttemptOutcome → Bool
  | .apiError _ _ => true
  | .thrown _ => true
  | _ => false

/-- The `err.message` seen by the `catch` block. -/
def AttemptOutcome.failMsg : AttemptOutcome → String
  | .apiError code info => code ++ ": " ++ info
  | .thrown msg => msg
  | _ => ""

/-- Outcome of one `wiki.editPage` call. -/
inductive EditOutcome where
  | ok
  | apiError (code info : String)
  | thrown (msg : String)
deriving DecidableEq, Repr

/-- The `err.message` seen by `editFilePage`'s `catch` block. -/
def EditOutcome.failMsg : EditOutcome → String
  | .apiError code info => code ++ ": " ++ info
  | .thrown msg => msg
  | _ => ""

/-- The `{success, error?}` record returned by `editFilePage`. -/
structure EditResult where
  success : Bool
  error : String := ""
deriving DecidableEq, Repr

/-- The `editFilePage` loop: first argument is the remaining number of
attempts, second the current attempt index.  Returns the result and the
backoff sleeps (`500 * attempt`) performed between attempts. -/
def editGo (edit : Nat → EditOutcome) : Nat → Nat → EditResult × List Nat
  | 0, _ => (⟨false, "Max retries exceeded"⟩, [])
  | 1, attempt =>
    match edit attempt with
    | .ok => (⟨true, ""⟩, [])
    | e => (⟨false, e.failMsg⟩, [])
  | r + 2, attempt =>
    match edit attempt with
    | .ok => (⟨true, ""⟩, [])
    | _ =>
      let (res, sl) := editGo edit (r + 1) (attempt + 1)
      (res, 500 * attempt :: sl)

/-- `editFilePage` with its retry budget (default 3). -/
def editFilePage (edit : Nat → EditOutcome) (retries : Nat := 3) :
    EditResult × List Nat :=
  editGo edit retries 1

/-- The result record of `uploadSingleImage` (absent JS fields default to
`""`/`none`/`0`). -/
structure UploadResult where
  success : Bool
  skipped : Bool := false
  message : String := ""
  filename : String := ""
  warning : Option String := none
  error : String := ""
  attempts : Nat := 0
deriving DecidableEq, Repr

/-- `result.upload?.filename || targetName` (empty string is falsy). -/
def resolveFilename (uploadFilename : Option String) (targetName : String) :
    String :=
  match uploadFilename with
  | some f => if f.isEmpty then targetName else f
  | none => targetName

/-- The `uploadSingleImage` loop: arguments are the remaining attempts,
the current attempt index and `lastError`.  Returns the result, the
chronological sleeps (upload backoff `1000 * attempt`, and the edit
backoffs), and the number of `wiki.uploadImage` calls made. -/
def uploadGo (up : Nat → AttemptOutcome) (edit : Nat → EditOutcome)
    (targetName : String) (retries : Nat) :
    Nat → Nat → Option String → UploadResult × List Nat × Nat
  | 0, _, lastError =>
    ({ success := false,
       error := lastError.getD "Unknown error",
       attempts := retries }, [], 0)
  | r + 1, attempt, _ =>
    match up attempt with
    | .fileExistsNoChange =>
      ({ success := true, skipped := true,
         message := "File already exists with same content" }, [], 1)
    | .ok fn =>
      let (editRes, editSleeps) := editFilePage edit retries
      if editRes.success then
        ({ success := true, skipped := false,
           filename := resolveFilename fn targetName }, editSleeps, 1)
      else
        ({ success := true, skipped := false,
           filename := resolveFilename fn targetName,
           warning := some ("Upload OK, but category edit failed: "
             ++ editRes.error) }, editSleeps, 1)
    | e =>
      let msg := e.failMsg
      let (res, sl, k) := uploadGo up edit targetName retries r (attempt + 1) (some msg)
      if r = 0 then (res, sl, k + 1)
      else (res, 1000 * attempt :: sl, k + 1)

/-- `uploadSingleImage` with its retry ceiling (default 3). -/
def uploadSingleImage (up : Nat → AttemptOutcome)
    (edit : Nat → EditOutcome) (targetName : String) (retries : Nat := 3) :
    UploadResult × List Nat × Nat :=
  uploadGo up edit targetName retries retries 1 none

/-! ## One worker iteration of `processUploadQueue` -/

/-- The tagged events sent through the `onProgress` observer. -/
inductive Event where
  | uploading (file : String)
  | success (file : String)
  | warning (file message : String)
  | skip (file reason : String)
  | error (file message : String)
  | dryRun (file sanitizedName : String) (categories : Categories)
      (wikiText filePageTitle : String)
deriving DecidableEq, Repr

/-- `config.wiki?.prefix || 'unknown'`. -/
def resolveWikiPref (config : Config) : String :=
  match orNull config.wikiPref with
  | some p => p
  | none => "unknown"

/-- What one claimed queue item produces: the updated ledgers, the
observer events in order, the number of remote upload calls and the
counter increments. -/
structure WorkerOutcome where
  tracker : ProgressTracker
  ulog : UploadLog
  events : List Event
  remoteCalls : Nat
  completedInc : Nat
  failedInc : Nat
  skippedInc : Nat
deriving DecidableEq, Repr

/-- The body of one iteration of `worker()` in `processUploadQueue`, for
the claimed item `targetName`: path-map resolution, the dedup-ledger
check, dry-run preview, else the upload with outcome recording.  `ts` is
the timestamp the log lines carry. -/
def workerStep (config : Config) (pathMap : List (String × String))
    (up : Nat → AttemptOutcome) (edit : Nat → EditOutcome)
    (dryRun : Bool) (ts : String) (tracker : ProgressTracker)
    (ulog : UploadLog) (targetName : String) : WorkerOutcome :=
  match lookupStr pathMap targetName with
  | none =>
    { tracker := tracker.markFailed targetName "Source file not found"
      ulog := ulog.logFailed ts targetName "Source file not found"
      events := [.error targetName "Source file not found"]
      remoteCalls := 0
      completedInc := 0, failedInc := 1, skippedInc := 0 }
  | some originalRelPath =>
    if ulog.isUploaded targetName then
      { tracker := tracker.markCompleted targetName
        ulog := ulog
        events := [.skip targetName "Already uploaded"]
        remoteCalls := 0
        completedInc := 0, failedInc := 0, skippedInc := 1 }
    else
      let categories := extractCategories originalRelPath config
      let wikiText := generateWikiText categories config
      let sanitizedName := sanitizeFileName targetName
      if dryRun then
        { tracker := tracker
          ulog := ulog
          events := [.dryRun targetName sanitizedName categories wikiText
            ("File:" ++ sanitizedName)]
          remoteCalls := 0
          completedInc := 1, failedInc := 0, skippedInc := 0 }
      else
        let (result, _sleeps, calls) := uploadSingleImage up edit sanitizedName
        if result.success then
          { tracker := tracker.markCompleted targetName
            ulog := ulog.logSuccess ts targetName (resolveWikiPref config)
            events :=
              if result.skipped then
                [.uploading targetName, .skip targetName result.message]
              else
                match result.warning with
                | some w => [.uploading targetName, .warning targetName w]
                | none => [.uploading targetName, .success targetName]
            remoteCalls := calls
            completedInc := if result.skipped then 0 else 1
            failedInc := 0
            skippedInc := if result.skipped then 1 else 0 }
        else
          { tracker := tracker.markFailed targetName result.error
              result.attempts
            ulog := ulog.logFailed ts targetName result.error
            events := [.uploading targetName, .error targetName result.error]
            remoteCalls := calls
            completedInc := 0, failedInc := 1, skippedInc := 0 }

/-! ## Support lemmas -/

theorem contains_eq_true_iff (l : List String) (x : String) :
    l.contains x = true ↔ x ∈ l :=
  List.elem_iff

theorem mem_addToSet (s : List String) (x : String) : x ∈ addToSet s x := by
  unfold addToSet
  split
  · exact (contains_eq_true_iff _ _).mp (by assumption)
  · simp

theorem addToSet_contains (s : List String) (x : String) :
    (addToSet s x).contains x = true := by
  unfold addToSet
  split
  · assumption
  · exact List.elem_iff.mpr (by simp)

theorem markCompleted_completed_contains (d : RunData) (n : String) :
    (d.markCompleted n).completed.contains n = true := by
  unfold RunData.markCompleted
  dsimp only
  split
  · assumption
  · exact List.elem_iff.mpr (by simp)

theorem filter_eraseP_of_le_one {α} (p : α → Bool) :
    ∀ l : List α, (l.filter p).length ≤ 1 → (l.eraseP p).filter p = []
  | [], _ => rfl
  | x :: l, h => by
    cases hx : p x
    · rw [List.eraseP_cons_of_neg (by simp [hx]),
        List.filter_cons_of_neg (by simp [hx])]
      rw [List.filter_cons_of_neg (by simp [hx])] at h
      exact filter_eraseP_of_le_one p l h
    · rw [List.eraseP_cons_of_pos hx]
      rw [List.filter_cons_of_pos hx] at h
      simp only [List.length_cons] at h
      exact List.length_eq_zero.mp (by omega)

theorem filter_eraseP_disjoint {α} (p q : α → Bool)
    (hpq : ∀ x, q x = true → p x = false) :
    ∀ l : List α, (l.eraseP q).filter p = l.filter p
  | [] => rfl
  | x :: l => by
    cases hx : q x
    · rw [List.eraseP_cons_of_neg (by simp [hx])]
      cases hp : p x
      · rw [List.filter_cons_of_neg (by simp [hp]),
          List.filter_cons_of_neg (by simp [hp])]
        exact filter_eraseP_disjoint p q hpq l
      · rw [List.filter_cons_of_pos hp, List.filter_cons_of_pos hp]
        rw [filter_eraseP_disjoint p q hpq l]
    · rw [List.eraseP_cons_of_pos hx,
        List.filter_cons_of_neg (by simp [hpq x hx])]

theorem upsertFailed_filter_ne (n m e : String) (a : Nat) (hne : m ≠ n) :
    ∀ l, (upsertFailed l m e a).filter (fun f => f.file == n)
      = l.filter (fun f => f.file == n)
  | [] => by
    have hmn : (m == n) = false := by simpa using hne
    simp [upsertFailed, hmn]
  | f :: fs => by
    unfold upsertFailed
    cases hf : f.file == m
    · simp only [Bool.false_eq_true, if_false, List.filter_cons,
        upsertFailed_filter_ne n m e a hne fs]
    · have hfm : f.file = m := by simpa using hf
      have hfn : (f.file == n) = false := by
        simp only [hfm]; simpa using hne
      simp [List.filter_cons, hfn]

theorem upsertFailed_append_of_none (n e : String) (a : Nat) :
    ∀ l : List FailedEntry, (∀ f ∈ l, (f.file == n) = false) →
      upsertFailed l n e a = l ++ [⟨n, e, a⟩]
  | [], _ => rfl
  | f :: fs, h => by
    unfold upsertFailed
    rw [if_neg (by simp [h f (by simp)])]
    rw [upsertFailed_append_of_none n e a fs (fun g hg => h g (by simp [hg]))]
    simp

/-- Claim C10: on a `ProgressTracker` whose internal state is absent
(`this.data === null`), `markCompleted`, `markFailed` and `save` return
without writing anything, `getStats` returns the not-found value, and
`getPendingFiles` / `getFailedFiles` return empty lists — no operation
fabricates run state. -/
theorem uninitialized_tracker_is_inert (t : ProgressTracker)
    (n e : String) (a : Nat) (h : t.data = none) :
    t.markCompleted n = t ∧ t.markFailed n e a = t ∧ t.save = none ∧
    t.getStats = none ∧ t.getPendingFiles = [] ∧ t.getFailedFiles = [] := by
  obtain ⟨_⟩ := t
  cases h
  exact ⟨rfl, rfl, rfl, rfl, rfl, rfl⟩

/-- Witness for C10 at a concrete uninitialized tracker. -/
theorem uninitialized_tracker_is_inert_witness :
    (ProgressTracker.mk none).markCompleted "a.png" = ⟨none⟩ ∧
    (ProgressTracker.mk none).markFailed "a.png" "boom" 2 = ⟨none⟩ ∧
    (ProgressTracker.mk none).save = none ∧
    (ProgressTracker.mk none).getStats = none ∧
    (ProgressTracker.mk none).getPendingFiles = [] ∧
    (ProgressTracker.mk none).getFailedFiles = [] :=
  uninitialized_tracker_is_inert ⟨none⟩ "a.png" "boom" 2 rfl

/-- Claim C1 (refuted by the code, which contradicts the repository's own
documentation of the upload log as preventing re-uploads): `logSuccess`
writes `[ts] SUCCESS <name> -> <prefix>`, but `load()`'s regex
`^\[.*?\]\s+SUCCESS\s+(.+)$` captures everything after `SUCCESS`, so the
reconstructed membership holds `"a.png -> dnd5e"` and `isUploaded
"a.png"` is `false` after a reload: the ledger forgets the success. -/
theorem logSuccess_then_load_forgets :
    (loadFromContent ((UploadLog.logSuccess ⟨[], []⟩
        "2026-01-12T13:30:00.000Z" "a.png" "dnd5e").content)).isUploaded
        "a.png" = false
    ∧ (loadFromContent ((UploadLog.logSuccess ⟨[], []⟩
        "2026-01-12T13:30:00.000Z" "a.png" "dnd5e").content)).uploaded
        = ["a.png -> dnd5e"]
    ∧ (UploadLog.logSuccess ⟨[], []⟩ "2026-01-12T13:30:00.000Z" "a.png"
        "dnd5e").isUploaded "a.png" = true := by
  decide

/-- Claim C9: the documented scenario for `spells/FTD/Fireball.webp` with
category mapping `{spells: "法术"}`: flattened target name, extracted
tags, and the four category tags in order. -/
theorem fireball_scenario_end_to_end :
    transformPath "spells/FTD/Fireball.webp" = "spells-FTD-Fireball.webp"
    ∧ extractCategories "spells/FTD/Fireball.webp"
        { categoryMapping := [("spells", "法术")] }
        = ⟨some "spells", some "法术", some "FTD"⟩
    ∧ generateWikiText ⟨some "spells", some "法术", some "FTD"⟩
        { categoryMapping := [("spells", "法术")] }
        = "[[Category:插图]][[Category:FTD]][[Category:法术]][[Category:FTD插图]]" := by
  decide

/-- Counterexample to claim C6 as stated: with requested concurrency 10,
configured maximum 3 and zero items, `processUploadQueue` starts
`Math.min(3, 0) = 0` workers, not the `max 1 (min 10 3 0) = 1` the
floor-of-1 formula would give. -/
theorem workerCount_zero_items_not_one :
    workerCount (some 10) { uploadMaxConcurrency := some 3 } 0 = 0
    ∧ (max 1 (min (min (10 : Int) 3) 0)).toNat = 1 := by
  decide

/-- Claim C6 as amended: for one or more items the worker count equals
`min(requested, configuredMax, itemCount)` floored at 1 (and equals
`min(requested, itemCount)` floored at 1 when no maximum is configured,
1 when nothing is requested or requested is 0 with no configured
maximum); with zero items zero workers start.  The documented instance
requested=10, max=3, items=100 gives exactly 3. -/
theorem workerCount_clamped_formula (r c : Int) (items : Nat)
    (hi : 1 ≤ items) :
    workerCount (some r) { uploadMaxConcurrency := some c } items
      = (max 1 (min (min r c) (items : Int))).toNat
    ∧ workerCount (some r) {} items = (max 1 (min r (items : Int))).toNat
    ∧ workerCount none {} items = 1
    ∧ workerCount (some 0) {} items = (min (items : Int) 1).toNat
    ∧ workerCount (some 10) { uploadMaxConcurrency := some 3 } 100 = 3 := by
  unfold workerCount maxConcurrency normalizeConcurrency
    configConcurrencyValue
  refine ⟨?_, ?_, ?_, ?_, by decide⟩ <;> simp <;> omega

/-- Witness for C6's amended formula at requested=10, max=3, items=100. -/
theorem workerCount_clamped_formula_witness :
    workerCount (some 10) { uploadMaxConcurrency := some 3 } 100
      = (max 1 (min (min (10 : Int) 3) (100 : Int))).toNat
    ∧ workerCount none {} 5 = 1 :=
  ⟨(workerCount_clamped_formula 10 3 100 (by omega)).1,
    (workerCount_clamped_formula 10 3 5 (by omega)).2.2.1⟩

/-- Claim C4: on any run state in which the name occurs at most once in
each of `pendingFiles`, `completed` and `failed` (the set/mapping
discipline of RunState), `markCompleted` then `markFailed` then
`markCompleted` leaves the name exactly once in `completed`, absent from
`pendingFiles`, and absent from `failed`. -/
theorem complete_fail_complete_final_state (d : RunData) (n e : String)
    (a : Nat)
    (hp : d.pendingFiles.count n ≤ 1)
    (hc : d.completed.count n ≤ 1)
    (hf : (d.failed.filter (fun f => f.file == n)).length ≤ 1) :
    (((d.markCompleted n).markFailed n e a).markCompleted n).completed.count
        n = 1
    ∧ (((d.markCompleted n).markFailed n e a).markCompleted
        n).pendingFiles.count n = 0
    ∧ (((d.markCompleted n).markFailed n e a).markCompleted
        n).failed.filter (fun f => f.file == n) = [] := by
  unfold RunData.markCompleted RunData.markFailed
  dsimp only
  refine ⟨?_, ?_, ?_⟩
  · cases hc0 : d.completed.contains n
    · have hnot : n ∉ d.completed := by
        intro hmem
        have hcm := (contains_eq_true_iff d.completed n).mpr hmem
        rw [hc0] at hcm
        exact Bool.false_ne_true hcm
      simp only [Bool.false_eq_true, if_false]
      rw [if_pos ((contains_eq_true_iff _ _).mpr (by simp))]
      rw [List.count_append, List.count_eq_zero.mpr hnot]
      simp
    · have hmem : n ∈ d.completed := (contains_eq_true_iff _ _).mp hc0
      have h1 : 1 ≤ d.completed.count n := List.count_pos_iff.mpr hmem
      simp only [if_true]
      rw [if_pos hc0]
      omega
  · rw [List.count_erase_self, List.count_erase_self,
      List.count_erase_self]
    omega
  · have h1 : (d.failed.eraseP (fun f => f.file == n)).filter
        (fun f => f.file == n) = [] :=
      filter_eraseP_of_le_one _ d.failed hf
    have h2 : ∀ f ∈ d.failed.eraseP (fun f => f.file == n),
        (f.file == n) = false := by
      intro f hmem
      have := List.filter_eq_nil_iff.mp h1 f hmem
      simpa using this
    rw [upsertFailed_append_of_none n e a _ h2]
    apply filter_eraseP_of_le_one
    rw [List.filter_append, h1]
    simp

/-- Witness for C4 at a concrete one-element run state. -/
theorem complete_fail_complete_final_state_witness :
    ((((RunData.mk "t" "s" 1 ["a.png"] [] []).markCompleted
        "a.png").markFailed "a.png" "boom" 2).markCompleted
        "a.png").completed.count "a.png" = 1
    ∧ ((((RunData.mk "t" "s" 1 ["a.png"] [] []).markCompleted
        "a.png").markFailed "a.png" "boom" 2).markCompleted
        "a.png").pendingFiles.count "a.png" = 0
    ∧ ((((RunData.mk "t" "s" 1 ["a.png"] [] []).markCompleted
        "a.png").markFailed "a.png" "boom" 2).markCompleted
        "a.png").failed.filter (fun f => f.file == "a.png") = [] :=
  complete_fail_complete_final_state ⟨"t", "s", 1, ["a.png"], [], []⟩
    "a.png" "boom" 2 (by decide) (by decide) (by decide)

/-- Counterexample to claim C3 as stated: a name recorded in the Dedup
Ledger's membership but absent from the run's path map is reported as an
error and marked failed, not skipped and marked completed. -/
theorem dedup_member_failed_without_path_entry :
    (workerStep {} [] (fun _ => .thrown "x") (fun _ => .ok) false "ts"
        ⟨some ⟨"t", "s", 1, ["a.png"], [], []⟩⟩ ⟨["a.png"], []⟩
        "a.png").events
      = [Event.error "a.png" "Source file not found"]
    ∧ (workerStep {} [] (fun _ => .thrown "x") (fun _ => .ok) false "ts"
        ⟨some ⟨"t", "s", 1, ["a.png"], [], []⟩⟩ ⟨["a.png"], []⟩
        "a.png").skippedInc = 0
    ∧ (workerStep {} [] (fun _ => .thrown "x") (fun _ => .ok) false "ts"
        ⟨some ⟨"t", "s", 1, ["a.png"], [], []⟩⟩ ⟨["a.png"], []⟩
        "a.png").failedInc = 1
    ∧ (workerStep {} [] (fun _ => .thrown "x") (fun _ => .ok) false "ts"
        ⟨some ⟨"t", "s", 1, ["a.png"], [], []⟩⟩ ⟨["a.png"], []⟩
        "a.png").tracker.data
      = some ⟨"t", "s", 1, [], [],
          [⟨"a.png", "Source file not found", 1⟩]⟩ := by
  decide

/-- Claim C3 as amended: a name in the Dedup Ledger's membership that
resolves through the run's path map is skipped by the worker — a skip
event, no remote call, the name marked completed — whatever the RunState
contains and in any mode. -/
theorem dedup_member_always_skipped (config : Config)
    (pathMap : List (String × String)) (up : Nat → AttemptOutcome)
    (edit : Nat → EditOutcome) (dryRun : Bool) (ts : String)
    (tracker : ProgressTracker) (ulog : UploadLog) (n rel : String)
    (d : RunData)
    (hres : lookupStr pathMap n = some rel)
    (hup : ulog.isUploaded n = true)
    (hd : tracker.data = some d) :
    (workerStep config pathMap up edit dryRun ts tracker ulog n).events
      = [Event.skip n "Already uploaded"]
    ∧ (workerStep config pathMap up edit dryRun ts tracker ulog
        n).remoteCalls = 0
    ∧ (workerStep config pathMap up edit dryRun ts tracker ulog n).ulog
      = ulog
    ∧ (workerStep config pathMap up edit dryRun ts tracker ulog
        n).skippedInc = 1
    ∧ (workerStep config pathMap up edit dryRun ts tracker ulog
        n).tracker.data = some (d.markCompleted n)
    ∧ (d.markCompleted n).completed.contains n = true := by
  unfold workerStep
  rw [hres]
  dsimp only
  rw [if_pos hup]
  refine ⟨rfl, rfl, rfl, rfl, ?_, markCompleted_completed_contains d n⟩
  unfold ProgressTracker.markCompleted
  rw [hd]

/-- Witness for C3's amended theorem: a concrete ledger-recorded,
path-resolvable name in dry-run mode with an initialized tracker. -/
theorem dedup_member_always_skipped_witness :
    (workerStep {} [("a.png", "a.png")] (fun _ => .thrown "x")
        (fun _ => .ok) true "ts" ⟨some ⟨"t", "s", 1, ["a.png"], [], []⟩⟩
        ⟨["a.png"], []⟩ "a.png").events
      = [Event.skip "a.png" "Already uploaded"]
    ∧ (workerStep {} [("a.png", "a.png")] (fun _ => .thrown "x")
        (fun _ => .ok) true "ts" ⟨some ⟨"t", "s", 1, ["a.png"], [], []⟩⟩
        ⟨["a.png"], []⟩ "a.png").remoteCalls = 0
    ∧ (workerStep {} [("a.png", "a.png")] (fun _ => .thrown "x")
        (fun _ => .ok) true "ts" ⟨some ⟨"t", "s", 1, ["a.png"], [], []⟩⟩
        ⟨["a.png"], []⟩ "a.png").ulog = ⟨["a.png"], []⟩
    ∧ (workerStep {} [("a.png", "a.png")] (fun _ => .thrown "x")
        (fun _ => .ok) true "ts" ⟨some ⟨"t", "s", 1, ["a.png"], [], []⟩⟩
        ⟨["a.png"], []⟩ "a.png").skippedInc = 1
    ∧ (workerStep {} [("a.png", "a.png")] (fun _ => .thrown "x")
        (fun _ => .ok) true "ts" ⟨some ⟨"t", "s", 1, ["a.png"], [], []⟩⟩
        ⟨["a.png"], []⟩ "a.png").tracker.data
      = some ((RunData.mk "t" "s" 1 ["a.png"] [] []).markCompleted "a.png")
    ∧ ((RunData.mk "t" "s" 1 ["a.png"] [] []).markCompleted
        "a.png").completed.contains "a.png" = true :=
  dedup_member_always_skipped {} [("a.png", "a.png")] (fun _ => .thrown "x")
    (fun _ => .ok) true "ts" ⟨some ⟨"t", "s", 1, ["a.png"], [], []⟩⟩
    ⟨["a.png"], []⟩ "a.png" "a.png" ⟨"t", "s", 1, ["a.png"], [], []⟩
    (by decide) (by decide) rfl

/-! ## Operation sequences on the run state (claim C2) -/

/-- The mutating progress-ledger operations a run performs on a loaded
state: `markCompleted`, `markFailed`, and the retry admission. -/
inductive LedgerOp where
  | complete (n : String)
  | failOp (n e : String) (a : Nat)
  | admitRetry
deriving DecidableEq, Repr

/-- Apply one operation. -/
def applyOp (d : RunData) : LedgerOp → RunData
  | .complete n => d.markCompleted n
  | .failOp n e a => d.markFailed n e a
  | .admitRetry => d.admitForRetry

/-- Apply a sequence of operations in order. -/
def applyOps (d : RunData) : List LedgerOp → RunData
  | [] => d
  | op :: rest => applyOps (applyOp d op) rest

/-- Whether one operation respects the executor discipline at state `d`:
a `markFailed` only for a name not currently completed. -/
def opSafeNow (d : RunData) : LedgerOp → Bool
  | .failOp n _ _ => !(d.completed.contains n)
  | _ => true

/-- A sequence is safe from `d` when every `markFailed` in it is applied
at a state where its name is not already completed (as in the executor's
per-item protocol, which marks an item failed only instead of — never
after — marking it completed). -/
def safeOps (d : RunData) : List LedgerOp → Bool
  | [] => true
  | op :: rest => opSafeNow d op && safeOps (applyOp d op) rest

/-- The mutual-exclusion property of a name: not simultaneously in
`completed` and in `failed`. -/
def exclusiveB (d : RunData) (n : String) : Bool :=
  !(d.completed.contains n && d.failed.any (fun f => f.file == n))

/-- Counterexample to claim C2 as stated: from a freshly created state
with `a.png` pending, `markCompleted "a.png"` followed by
`markFailed "a.png"` leaves the name in `completed` AND in `failed` —
`markFailed` does not clear a prior completion. -/
theorem markFailed_after_markCompleted_breaks_exclusivity :
    (((RunData.mk "t" "s" 1 ["a.png"] [] []).markCompleted
        "a.png").markFailed "a.png" "boom" 3).completed.contains "a.png"
      = true
    ∧ (((RunData.mk "t" "s" 1 ["a.png"] [] []).markCompleted
        "a.png").markFailed "a.png" "boom" 3).failed.any
        (fun f => f.file == "a.png") = true
    ∧ exclusiveB (((RunData.mk "t" "s" 1 ["a.png"] [] []).markCompleted
        "a.png").markFailed "a.png" "boom" 3) "a.png" = false := by
  decide

theorem any_file_iff_filter_ne_nil (l : List FailedEntry) (n : String) :
    l.any (fun f => f.file == n) = true
      ↔ l.filter (fun f => f.file == n) ≠ [] := by
  rw [List.any_eq_true]
  constructor
  · rintro ⟨f, hmem, hf⟩ hnil
    exact (List.filter_eq_nil_iff.mp hnil) f hmem (by simpa using hf)
  · intro hne
    rcases hf : l.filter (fun f => f.file == n) with _ | ⟨f, fs⟩
    · exact absurd hf hne
    · have : f ∈ l.filter (fun f => f.file == n) := by rw [hf]; simp
      rcases List.mem_filter.mp this with ⟨hmem, hp⟩
      exact ⟨f, hmem, hp⟩

/-- The invariant strengthening for C2: the `failed` mapping holds at
most one entry for the name, and a completed name has none. -/
def invFor (d : RunData) (n : String) : Prop :=
  (d.failed.filter (fun f => f.file == n)).length ≤ 1
  ∧ (d.completed.contains n = true
      → d.failed.filter (fun f => f.file == n) = [])

theorem invFor_exclusiveB {d : RunData} {n : String} (h : invFor d n) :
    exclusiveB d n = true := by
  unfold exclusiveB
  cases hc : d.completed.contains n
  · simp
  · have hnil := h.2 hc
    have : d.failed.any (fun f => f.file == n) = false := by
      cases ha : d.failed.any (fun f => f.file == n)
      · rfl
      · exact absurd hnil ((any_file_iff_filter_ne_nil _ _).mp ha)
    simp [this]

theorem contains_append_singleton (l : List String) (m n : String) :
    (l ++ [m]).contains n = (l.contains n || (n == m)) := by
  cases hc : l.contains n
  · cases hnm : n == m
    · simp only [Bool.or_self]
      cases hca : (l ++ [m]).contains n
      · rfl
      · have := (contains_eq_true_iff _ _).mp hca
        rcases List.mem_append.mp this with hl | hr
        · rw [(contains_eq_true_iff _ _).mpr hl] at hc
          exact absurd hc (by simp)
        · have : n = m := by simpa using hr
          rw [this] at hnm
          simp at hnm
    · have : n = m := by simpa using hnm
      subst this
      simp [(contains_eq_true_iff _ _).mpr (by simp : n ∈ l ++ [n])]
  · have hmem2 : n ∈ l ++ [m] :=
      List.mem_append.mpr (Or.inl ((contains_eq_true_iff _ _).mp hc))
    rw [(contains_eq_true_iff _ _).mpr hmem2]
    simp

theorem upsertFailed_filter_self (m e : String) (a : Nat) :
    ∀ l : List FailedEntry,
      (l.filter (fun f => f.file == m)).length ≤ 1 →
      (upsertFailed l m e a).filter (fun f => f.file == m) = [⟨m, e, a⟩]
  | [], _ => by simp [upsertFailed]
  | f :: fs, h => by
    unfold upsertFailed
    cases hf : f.file == m
    · rw [List.filter_cons, hf] at h
      simp only [Bool.false_eq_true, if_false] at h
      simp only [Bool.false_eq_true, if_false, List.filter_cons, hf]
      exact upsertFailed_filter_self m e a fs h
    · have hfm : f.file = m := by simpa using hf
      rw [List.filter_cons, hf] at h
      simp only [if_true, List.length_cons] at h
      have hnil := List.length_eq_zero.mp (by omega :
        (fs.filter (fun f => f.file == m)).length = 0)
      simp [List.filter_cons, hfm, hnil]

theorem invFor_markCompleted {d : RunData} {n : String} (m : String)
    (h : invFor d n) : invFor (d.markCompleted m) n := by
  unfold RunData.markCompleted invFor
  dsimp only
  by_cases hmn : m = n
  · subst hmn
    have hnil := filter_eraseP_of_le_one _ d.failed h.1
    exact ⟨by rw [hnil]; simp, fun _ => hnil⟩
  · have hq : ∀ f : FailedEntry, (f.file == m) = true
        → ((fun f => f.file == n) f) = false := by
      intro f hf
      have : f.file = m := by simpa using hf
      simp [this, hmn]
    rw [filter_eraseP_disjoint _ _ hq]
    refine ⟨h.1, fun hcn => ?_⟩
    apply h.2
    cases hsplit : d.completed.contains m with
    | false =>
      rw [hsplit] at hcn
      simp only [Bool.false_eq_true, if_false] at hcn
      rw [contains_append_singleton] at hcn
      have hnm : (n == m) = false := by
        simp only [beq_eq_false_iff_ne, ne_eq]
        exact fun hx => hmn hx.symm
      rw [hnm] at hcn
      simpa using hcn
    | true =>
      rw [hsplit] at hcn
      simpa using hcn

theorem invFor_markFailed {d : RunData} {n : String} (m e : String)
    (a : Nat) (hsafe : d.completed.contains m = false)
    (h : invFor d n) : invFor (d.markFailed m e a) n := by
  unfold RunData.markFailed invFor
  dsimp only
  by_cases hmn : m = n
  · subst hmn
    constructor
    · rw [upsertFailed_filter_self m e a d.failed h.1]
      simp
    · intro hcn
      rw [hsafe] at hcn
      exact absurd hcn (by simp)
  · rw [upsertFailed_filter_ne n m e a hmn d.failed]
    exact h

theorem invFor_admitRetry {d : RunData} {n : String}
    (_h : invFor d n) : invFor d.admitForRetry n := by
  unfold RunData.admitForRetry invFor
  dsimp only
  exact ⟨by simp, fun _ => by simp⟩

theorem invFor_applyOp {d : RunData} {n : String} (op : LedgerOp)
    (hop : opSafeNow d op = true)
    (h : invFor d n) : invFor (applyOp d op) n := by
  cases op with
  | complete m => exact invFor_markCompleted m h
  | failOp m e a =>
    refine invFor_markFailed m e a ?_ h
    simpa [opSafeNow] using hop
  | admitRetry => exact invFor_admitRetry h

theorem invFor_applyOps {n : String} :
    ∀ (ops : List LedgerOp) (d : RunData), invFor d n
      → safeOps d ops = true → invFor (applyOps d ops) n
  | [], _, h, _ => h
  | op :: rest, d, h, hsafe => by
    rw [safeOps, Bool.and_eq_true] at hsafe
    exact invFor_applyOps rest (applyOp d op)
      (invFor_applyOp op hsafe.1 h) hsafe.2

/-- Claim C2 as amended: for a name with at most one `failed` entry and
not already in both sets, every sequence of ledger operations in which
`markFailed` is only invoked for names not currently completed (the
executor's discipline) preserves mutual exclusion of `completed` and
`failed` for that name.  (As stated the claim fails: `markFailed` after
`markCompleted` on the same name puts it in both — see the
counterexample.) -/
theorem completed_failed_exclusive_of_safe (ops : List LedgerOp)
    (d : RunData) (n : String)
    (hlen : (d.failed.filter (fun f => f.file == n)).length ≤ 1)
    (hexcl : exclusiveB d n = true)
    (hsafe : safeOps d ops = true) :
    exclusiveB (applyOps d ops) n = true := by
  have hinv : invFor d n := by
    refine ⟨hlen, fun hc => ?_⟩
    unfold exclusiveB at hexcl
    rw [hc] at hexcl
    simp only [Bool.true_and, Bool.not_eq_true'] at hexcl
    by_contra hne
    rw [(any_file_iff_filter_ne_nil _ _).mpr hne] at hexcl
    simp at hexcl
  exact invFor_exclusiveB (invFor_applyOps ops d hinv hsafe)

/-- Witness for C2's amended theorem on a concrete safe sequence mixing
failures, completions and a retry admission. -/
theorem completed_failed_exclusive_of_safe_witness :
    exclusiveB (applyOps ⟨"t", "s", 2, ["a.png", "b.png"], [], []⟩
      [LedgerOp.failOp "a.png" "x" 1, LedgerOp.complete "a.png",
        LedgerOp.failOp "b.png" "y" 2, LedgerOp.admitRetry,
        LedgerOp.complete "b.png"]) "a.png" = true :=
  completed_failed_exclusive_of_safe
    [LedgerOp.failOp "a.png" "x" 1, LedgerOp.complete "a.png",
      LedgerOp.failOp "b.png" "y" 2, LedgerOp.admitRetry,
      LedgerOp.complete "b.png"]
    ⟨"t", "s", 2, ["a.png", "b.png"], [], []⟩ "a.png"
    (by decide) (by decide) (by decide)

/-! ## Retry-loop behaviour (claims C7 and C8) -/

/-- Whether one edit attempt lands in the `catch` block. -/
def EditOutcome.isFailure : EditOutcome → Bool
  | .ok => false
  | _ => true

/-- The `editFilePage` loop under all-failing attempts: the final result
is a failure carrying the last attempt's message, with backoff sleeps
`500 × attempt` between consecutive attempts. -/
theorem editGo_all_fail (edit : Nat → EditOutcome) :
    ∀ (r a : Nat), 1 ≤ r →
      (∀ i, a ≤ i → i < a + r → (edit i).isFailure = true) →
      editGo edit r a =
        (⟨false, (edit (a + r - 1)).failMsg⟩,
          (List.range' a (r - 1)).map (fun j => 500 * j))
  | 0, _, h, _ => absurd h (by omega)
  | 1, a, _, hf => by
    have hfa : (edit a).isFailure = true := hf a (le_refl a) (by omega)
    rcases he : edit a with _ | ⟨code, info⟩ | msg
    · rw [he] at hfa
      exact absurd hfa (by simp [EditOutcome.isFailure])
    · simp [editGo, he, EditOutcome.failMsg]
    · simp [editGo, he, EditOutcome.failMsg]
  | r + 2, a, _, hf => by
    have hfa : (edit a).isFailure = true := hf a (le_refl a) (by omega)
    have ih := editGo_all_fail edit (r + 1) (a + 1) (by omega)
      (fun i h1 h2 => hf i (by omega) (by omega))
    have harith : a + 1 + (r + 1) - 1 = a + (r + 2) - 1 := by omega
    rcases he : edit a with _ | ⟨code, info⟩ | msg
    · rw [he] at hfa
      exact absurd hfa (by simp [EditOutcome.isFailure])
    · rw [editGo, he]
      dsimp only
      rw [ih, harith]
      have : (r + 2 - 1) = (r + 1 - 1) + 1 := by omega
      rw [this, List.range'_succ]
      simp
    · rw [editGo, he]
      dsimp only
      rw [ih, harith]
      have : (r + 2 - 1) = (r + 1 - 1) + 1 := by omega
      rw [this, List.range'_succ]
      simp

/-- The `uploadSingleImage` loop when upload attempts `a, …, k-1` fail,
attempt `k` succeeds and every metadata-edit attempt fails (ceiling 3,
`r` attempts remaining at attempt `a`): a success result (not a failure)
carrying the category-edit warning, after `k - a + 1` upload calls. -/
theorem uploadGo_ok_edit_fail (up : Nat → AttemptOutcome)
    (edit : Nat → EditOutcome) (targetName : String) (fn : Option String)
    (hedit3 : editGo edit 3 1 = (⟨false, (edit 3).failMsg⟩, [500, 1000])) :
    ∀ (r a : Nat) (le : Option String) (k : Nat), r + a = 4 → a ≤ k →
      k ≤ 3 →
      (∀ i, a ≤ i → i < k → (up i).isFailure = true) →
      up k = .ok fn →
      uploadGo up edit targetName 3 r a le =
        ({ success := true, skipped := false,
            filename := resolveFilename fn targetName,
            warning := some ("Upload OK, but category edit failed: "
              ++ (edit 3).failMsg) },
          ((List.range' a (k - a)).map (fun j => 1000 * j))
            ++ [500, 1000],
          k - a + 1)
  | 0, a, le, k, hsum, hak, hk3, _, _ => by exfalso; omega
  | r + 1, a, le, k, hsum, hak, hk3, hfail, hok => by
    by_cases hk : a = k
    · subst hk
      rw [uploadGo, hok]
      dsimp only
      unfold editFilePage
      rw [hedit3]
      simp
    · have halt : a < k := lt_of_le_of_ne hak hk
      have hfa : (up a).isFailure = true := hfail a (le_refl a) halt
      have hr0 : r ≠ 0 := by omega
      rcases he : up a with fn' | _ | ⟨code, info⟩ | msg
      · rw [he] at hfa
        exact absurd hfa (by simp [AttemptOutcome.isFailure])
      · rw [he] at hfa
        exact absurd hfa (by simp [AttemptOutcome.isFailure])
      · rw [uploadGo, he]
        dsimp only
        rw [uploadGo_ok_edit_fail up edit targetName fn hedit3 r (a + 1)
          (some (AttemptOutcome.apiError code info).failMsg) k (by omega)
          (by omega) hk3 (fun i h1 h2 => hfail i (by omega) h2) hok]
        rw [if_neg hr0]
        have h1 : k - a = (k - (a + 1)) + 1 := by omega
        rw [h1, List.range'_succ]
        simp
      · rw [uploadGo, he]
        dsimp only
        rw [uploadGo_ok_edit_fail up edit targetName fn hedit3 r (a + 1)
          (some (AttemptOutcome.thrown msg).failMsg) k (by omega)
          (by omega) hk3 (fun i h1 h2 => hfail i (by omega) h2) hok]
        rw [if_neg hr0]
        have h1 : k - a = (k - (a + 1)) + 1 := by omega
        rw [h1, List.range'_succ]
        simp

/-- `uploadSingleImage` when some attempt `k` within the ceiling
succeeds after transient failures on attempts `1, …, k-1` and every
metadata-edit attempt fails: a success result (not a failure) carrying
the category-edit warning, after exactly `k` upload calls. -/
theorem uploadSingleImage_ok_edit_exhausted (up : Nat → AttemptOutcome)
    (edit : Nat → EditOutcome) (targetName : String) (fn : Option String)
    (k : Nat) (hk1 : 1 ≤ k) (hk3 : k ≤ 3)
    (hfail : ∀ i, 1 ≤ i → i < k → (up i).isFailure = true)
    (hok : up k = .ok fn)
    (hedit : ∀ i, 1 ≤ i → i ≤ 3 → (edit i).isFailure = true) :
    uploadSingleImage up edit targetName 3 =
      ({ success := true, skipped := false,
          filename := resolveFilename fn targetName,
          warning := some ("Upload OK, but category edit failed: "
            ++ (edit 3).failMsg) },
        ((List.range' 1 (k - 1)).map (fun j => 1000 * j)) ++ [500, 1000],
        k) := by
  have hedit3 : editGo edit 3 1
      = (⟨false, (edit 3).failMsg⟩, [500, 1000]) := by
    have heg := editGo_all_fail edit 3 1 (by omega)
      (fun i h1 h2 => hedit i h1 (by omega))
    norm_num at heg
    rw [show (List.range' 1 2).map (fun j => 500 * j) = [500, 1000] from
      by decide] at heg
    exact heg
  have h := uploadGo_ok_edit_fail up edit targetName fn hedit3 3 1 none k
    (by omega) hk1 hk3 hfail hok
  rw [show k - 1 + 1 = k from by omega] at h
  exact h

/-- Claim C8: an item whose upload succeeds — on any attempt within the
retry ceiling, after transient failures on the earlier attempts — but
whose metadata edit exhausts its retries is reported as a warning (not
an error), counted completed, marked completed in the progress ledger
and recorded in the dedup ledger's membership. -/
theorem upload_ok_edit_exhausted_marked_completed (config : Config)
    (pathMap : List (String × String)) (up : Nat → AttemptOutcome)
    (edit : Nat → EditOutcome) (ts : String) (tracker : ProgressTracker)
    (ulog : UploadLog) (n rel : String) (d : RunData) (fn : Option String)
    (k : Nat)
    (hres : lookupStr pathMap n = some rel)
    (hnew : ulog.isUploaded n = false)
    (hd : tracker.data = some d)
    (hk1 : 1 ≤ k) (hk3 : k ≤ 3)
    (hfail : ∀ i, 1 ≤ i → i < k → (up i).isFailure = true)
    (hok : up k = .ok fn)
    (hedit : ∀ i, 1 ≤ i → i ≤ 3 → (edit i).isFailure = true) :
    (workerStep config pathMap up edit false ts tracker ulog n).events
      = [Event.uploading n, Event.warning n
          ("Upload OK, but category edit failed: " ++ (edit 3).failMsg)]
    ∧ (workerStep config pathMap up edit false ts tracker ulog
        n).completedInc = 1
    ∧ (workerStep config pathMap up edit false ts tracker ulog
        n).failedInc = 0
    ∧ (workerStep config pathMap up edit false ts tracker ulog
        n).skippedInc = 0
    ∧ (workerStep config pathMap up edit false ts tracker ulog
        n).tracker.data = some (d.markCompleted n)
    ∧ (d.markCompleted n).completed.contains n = true
    ∧ (workerStep config pathMap up edit false ts tracker ulog
        n).ulog.uploaded.contains n = true := by
  unfold workerStep
  rw [hres]
  dsimp only
  rw [hnew]
  simp only [Bool.false_eq_true, if_false]
  rw [uploadSingleImage_ok_edit_exhausted up edit (sanitizeFileName n) fn
    k hk1 hk3 hfail hok hedit]
  dsimp only
  refine ⟨?_, ?_, ?_, ?_, ?_, markCompleted_completed_contains d n, ?_⟩ <;>
    simp [ProgressTracker.markCompleted, hd, UploadLog.logSuccess,
      addToSet_contains, mem_addToSet]

/-- Witness for C8 at a concrete item whose first upload attempt throws,
whose second succeeds, and whose edit attempts all throw. -/
theorem upload_ok_edit_exhausted_marked_completed_witness :
    (workerStep {} [("a.png", "a.png")]
        (fun i => if i = 1 then .thrown "net" else .ok none)
        (fun _ => .thrown "editboom") false "ts"
        ⟨some ⟨"t", "s", 1, ["a.png"], [], []⟩⟩ ⟨[], []⟩ "a.png").events
      = [Event.uploading "a.png", Event.warning "a.png"
          "Upload OK, but category edit failed: editboom"]
    ∧ (workerStep {} [("a.png", "a.png")]
        (fun i => if i = 1 then .thrown "net" else .ok none)
        (fun _ => .thrown "editboom") false "ts"
        ⟨some ⟨"t", "s", 1, ["a.png"], [], []⟩⟩ ⟨[], []⟩
        "a.png").completedInc = 1
    ∧ (workerStep {} [("a.png", "a.png")]
        (fun i => if i = 1 then .thrown "net" else .ok none)
        (fun _ => .thrown "editboom") false "ts"
        ⟨some ⟨"t", "s", 1, ["a.png"], [], []⟩⟩ ⟨[], []⟩
        "a.png").tracker.data
      = some ((RunData.mk "t" "s" 1 ["a.png"] [] []).markCompleted "a.png")
    ∧ (workerStep {} [("a.png", "a.png")]
        (fun i => if i = 1 then .thrown "net" else .ok none)
        (fun _ => .thrown "editboom") false "ts"
        ⟨some ⟨"t", "s", 1, ["a.png"], [], []⟩⟩ ⟨[], []⟩
        "a.png").ulog.uploaded.contains "a.png" = true := by
  have h := upload_ok_edit_exhausted_marked_completed {}
    [("a.png", "a.png")]
    (fun i => if i = 1 then .thrown "net" else .ok none)
    (fun _ => .thrown "editboom") "ts"
    ⟨some ⟨"t", "s", 1, ["a.png"], [], []⟩⟩ ⟨[], []⟩ "a.png" "a.png"
    ⟨"t", "s", 1, ["a.png"], [], []⟩ none 2 (by decide) rfl rfl
    (by omega) (by omega)
    (fun i h1 h2 => by
      have hi : i = 1 := by omega
      subst hi
      rfl)
    (by decide) (fun i _ _ => rfl)
  exact ⟨h.1, h.2.1, h.2.2.2.2.1, h.2.2.2.2.2.2⟩

/-! ## Idempotence of the name sanitizer (claim C5) -/

/-- Every whitespace character in the list is a plain space. -/
def spacesAreSp (l : List Char) : Prop :=
  ∀ c ∈ l, isJsSpace c = true → c = ' '

/-- No two adjacent whitespace characters. -/
def noAdjSp (l : List Char) : Prop :=
  l.Chain' (fun a b => ¬(isJsSpace a = true ∧ isJsSpace b = true))

/-- The first character, if any, is not whitespace. -/
def headOk (l : List Char) : Prop :=
  ∀ c ∈ l.head?, isJsSpace c = false

/-- The last character, if any, is not whitespace. -/
def lastOk (l : List Char) : Prop :=
  ∀ c ∈ l.getLast?, isJsSpace c = false

theorem sanitizeChar_eq_underscore_or_self (c : Char) :
    sanitizeChar c = '_' ∨ sanitizeChar c = c := by
  unfold sanitizeChar
  split_ifs <;> simp

theorem sanitizeChar_idem (c : Char) :
    sanitizeChar (sanitizeChar c) = sanitizeChar c := by
  rcases sanitizeChar_eq_underscore_or_self c with h | h
  · rw [h]; decide
  · rw [h]; exact h

theorem collapseWs_spaces :
    ∀ (l : List Char) (b : Bool), spacesAreSp (collapseWs b l)
  | [], b => by intro c hc; simp [collapseWs] at hc
  | c :: cs, b => by
    intro x hx hsp
    unfold collapseWs at hx
    cases hc : isJsSpace c with
    | true =>
      rw [if_pos hc] at hx
      cases b with
      | true =>
        simp only [if_true] at hx
        exact collapseWs_spaces cs true x hx hsp
      | false =>
        simp only [Bool.false_eq_true, if_false] at hx
        rcases List.mem_cons.mp hx with h | h
        · exact h
        · exact collapseWs_spaces cs true x h hsp
    | false =>
      rw [if_neg (by simp [hc])] at hx
      rcases List.mem_cons.mp hx with h | h
      · subst h; rw [hc] at hsp; exact absurd hsp (by simp)
      · exact collapseWs_spaces cs false x h hsp

theorem collapseWs_mem :
    ∀ (l : List Char) (b : Bool) (x : Char), x ∈ collapseWs b l →
      x = ' ' ∨ x ∈ l
  | [], b, x => by intro hx; simp [collapseWs] at hx
  | c :: cs, b, x => by
    intro hx
    unfold collapseWs at hx
    cases hc : isJsSpace c with
    | true =>
      rw [if_pos hc] at hx
      cases b with
      | true =>
        rcases collapseWs_mem cs true x hx with h | h
        · exact Or.inl h
        · exact Or.inr (by simp [h])
      | false =>
        simp only [Bool.false_eq_true, if_false] at hx
        rcases List.mem_cons.mp hx with h | h
        · exact Or.inl h
        · rcases collapseWs_mem cs true x h with h2 | h2
          · exact Or.inl h2
          · exact Or.inr (by simp [h2])
    | false =>
      rw [if_neg (by simp [hc])] at hx
      rcases List.mem_cons.mp hx with h | h
      · exact Or.inr (by simp [h])
      · rcases collapseWs_mem cs false x h with h2 | h2
        · exact Or.inl h2
        · exact Or.inr (by simp [h2])

theorem collapseWs_headOk :
    ∀ l : List Char, headOk (collapseWs true l)
  | [] => by intro c hc; simp [collapseWs] at hc
  | c :: cs => by
    intro x hx
    unfold collapseWs at hx
    cases hc : isJsSpace c with
    | true =>
      rw [if_pos hc] at hx
      simp only [if_true] at hx
      exact collapseWs_headOk cs x hx
    | false =>
      rw [if_neg (by simp [hc])] at hx
      simp only [List.head?_cons, Option.mem_some_iff] at hx
      subst hx
      exact hc

theorem collapseWs_chain :
    ∀ (l : List Char) (b : Bool), noAdjSp (collapseWs b l)
  | [], b => by
    unfold collapseWs
    exact List.chain'_nil
  | c :: cs, b => by
    unfold collapseWs noAdjSp
    cases hc : isJsSpace c with
    | true =>
      rw [if_pos rfl]
      cases b with
      | true =>
        simp only [if_true]
        exact collapseWs_chain cs true
      | false =>
        simp only [Bool.false_eq_true, if_false]
        rw [List.chain'_cons']
        refine ⟨fun y hy => ?_, collapseWs_chain cs true⟩
        intro ⟨_, hsp⟩
        rw [collapseWs_headOk cs y hy] at hsp
        exact Bool.false_ne_true hsp
    | false =>
      rw [if_neg (by simp)]
      rw [List.chain'_cons']
      refine ⟨fun y hy => ?_, collapseWs_chain cs false⟩
      intro ⟨hsp, _⟩
      rw [hc] at hsp
      exact Bool.false_ne_true hsp

theorem collapseWs_fix :
    ∀ (l : List Char) (b : Bool), spacesAreSp l → noAdjSp l →
      (b = true → headOk l) → collapseWs b l = l
  | [], b, _, _, _ => by unfold collapseWs; rfl
  | c :: cs, b, hsp, hch, hhd => by
    unfold collapseWs
    cases hc : isJsSpace c with
    | true =>
      have hceq : c = ' ' := hsp c (by simp) hc
      rw [if_pos rfl]
      cases b with
      | true =>
        have := hhd rfl c (by simp)
        rw [hc] at this
        exact absurd this (by simp)
      | false =>
        simp only [Bool.false_eq_true, if_false]
        rw [collapseWs_fix cs true
          (fun x hx => hsp x (by simp [hx]))
          (List.Chain'.tail hch)
          (fun _ y hy => by
            have := (List.chain'_cons'.mp hch).1 y hy
            cases hy2 : isJsSpace y with
            | false => rfl
            | true => exact absurd ⟨hc, hy2⟩ this)]
        rw [hceq]
    | false =>
      rw [if_neg (by simp)]
      rw [collapseWs_fix cs false
        (fun x hx => hsp x (by simp [hx]))
        (List.Chain'.tail hch)
        (fun hb => absurd hb (by simp))]

theorem headOk_dropWhile (l : List Char) :
    headOk (l.dropWhile isJsSpace) := by
  induction l with
  | nil => intro c hc; simp at hc
  | cons c cs ih =>
    intro x hx
    rw [List.dropWhile_cons] at hx
    cases hc : isJsSpace c with
    | true =>
      rw [if_pos hc] at hx
      exact ih x hx
    | false =>
      rw [if_neg (by simp [hc])] at hx
      simp only [List.head?_cons, Option.mem_some_iff] at hx
      subst hx
      exact hc

theorem lastOk_dropWhile (l : List Char) (h : lastOk l) :
    lastOk (l.dropWhile isJsSpace) := by
  induction l with
  | nil => intro c hc; simp at hc
  | cons c cs ih =>
    intro x hx
    rw [List.dropWhile_cons] at hx
    cases hc : isJsSpace c with
    | true =>
      rw [if_pos hc] at hx
      cases cs with
      | nil => simp at hx
      | cons y ys =>
        exact ih (fun z hz => h z (by rwa [List.getLast?_cons_cons])) x hx
    | false =>
      rw [if_neg (by simp [hc])] at hx
      exact h x hx

theorem dropWhile_eq_self_of_headOk (l : List Char) (h : headOk l) :
    l.dropWhile isJsSpace = l := by
  cases l with
  | nil => rfl
  | cons c cs =>
    rw [List.dropWhile_cons, if_neg (by simp [h c (by simp)])]

theorem jsTrim_eq_self (l : List Char) (h1 : headOk l) (h2 : lastOk l) :
    jsTrim l = l := by
  unfold jsTrim
  rw [dropWhile_eq_self_of_headOk l h1]
  rw [dropWhile_eq_self_of_headOk l.reverse
    (fun c hc => h2 c (by rwa [List.head?_reverse] at hc))]
  exact List.reverse_reverse l

theorem headOk_jsTrim (l : List Char) : headOk (jsTrim l) := by
  unfold jsTrim
  intro c hc
  rw [List.head?_reverse] at hc
  have hlast : lastOk ((l.dropWhile isJsSpace).reverse) := by
    intro x hx
    rw [List.getLast?_reverse] at hx
    exact headOk_dropWhile l x hx
  exact lastOk_dropWhile _ hlast c hc

theorem lastOk_jsTrim (l : List Char) : lastOk (jsTrim l) := by
  unfold jsTrim
  intro c hc
  rw [List.getLast?_reverse] at hc
  exact headOk_dropWhile _ c hc

theorem mem_of_mem_jsTrim {l : List Char} {c : Char} (h : c ∈ jsTrim l) :
    c ∈ l := by
  unfold jsTrim at h
  rw [List.mem_reverse] at h
  have h2 := (List.dropWhile_sublist (l := (l.dropWhile isJsSpace).reverse)
    isJsSpace).subset h
  rw [List.mem_reverse] at h2
  exact (List.dropWhile_sublist isJsSpace).subset h2

theorem noAdjSp_reverse {l : List Char} (h : noAdjSp l) :
    noAdjSp l.reverse := by
  unfold noAdjSp at h ⊢
  rw [List.chain'_reverse]
  exact h.imp (fun a b hab => fun ⟨x, y⟩ => hab ⟨y, x⟩)

theorem noAdjSp_jsTrim {l : List Char} (h : noAdjSp l) :
    noAdjSp (jsTrim l) := by
  unfold jsTrim
  apply noAdjSp_reverse
  exact (noAdjSp_reverse (h.suffix (List.dropWhile_suffix _))).suffix
    (List.dropWhile_suffix _)

theorem sanitizeChars_fixed_chars (l : List Char) :
    ∀ c ∈ sanitizeChars l, sanitizeChar c = c := by
  intro c hc
  have hm := mem_of_mem_jsTrim hc
  rcases collapseWs_mem _ false c hm with h | h
  · rw [h]; decide
  · rcases List.mem_map.mp h with ⟨x, _, hx⟩
    rw [← hx]
    exact sanitizeChar_idem x

/-- Claim C5: the name sanitizer (reserved characters to underscores,
whitespace runs to a single space, trim) is idempotent. -/
theorem sanitizeFileName_idempotent (s : String) :
    sanitizeFileName (sanitizeFileName s) = sanitizeFileName s := by
  have hmap : (sanitizeChars s.data).map sanitizeChar
      = sanitizeChars s.data := by
    rw [List.map_congr_left (sanitizeChars_fixed_chars s.data)]
    exact List.map_id _
  have hidem : sanitizeChars (sanitizeChars s.data)
      = sanitizeChars s.data := by
    show jsTrim (collapseWs false ((sanitizeChars s.data).map sanitizeChar))
      = sanitizeChars s.data
    rw [hmap]
    rw [collapseWs_fix (sanitizeChars s.data) false
      (fun c hc => collapseWs_spaces _ false c (mem_of_mem_jsTrim hc))
      (noAdjSp_jsTrim (collapseWs_chain _ false))
      (fun hb => absurd hb (by simp))]
    exact jsTrim_eq_self _ (headOk_jsTrim _) (lastOk_jsTrim _)
  exact congrArg String.mk hidem

end HuijiUpload
